import Mathlib

/-
  Verification of the outbound data-plane core of a WireGuard-style
  userspace VPN (wireguard-go fragment): TUN reader, per-peer nonce
  sequencer, parallel encryption workers, per-peer sequential sender,
  handshake-initiation rate limiting, and the sticky-source UDP bind.

  Bytes are modelled as natural numbers < 256 inside `List Nat`;
  machine integers are `Nat` with explicit reductions mod 2^64 where
  the Go code could overflow.  Fallible operations return `Option`.
  Protocol constants that live outside the supplied fragment
  (RejectAfterMessages, RekeyAfterMessages, RekeyAfterTime,
  RekeyTimeout, MaxContentSize) are taken as parameters.
-/

namespace WireGuard

/-! ### Byte-level primitives (encoding/binary little-endian) -/

/-- Model of `binary.LittleEndian.PutUint32`: the four bytes of `v`,
least significant first. -/
def putUint32LE (v : Nat) : List Nat :=
  [v % 256, v / 2 ^ 8 % 256, v / 2 ^ 16 % 256, v / 2 ^ 24 % 256]

/-- Model of `binary.LittleEndian.PutUint64`: the eight bytes of `v`,
least significant first. -/
def putUint64LE (v : Nat) : List Nat :=
  [v % 256, v / 2 ^ 8 % 256, v / 2 ^ 16 % 256, v / 2 ^ 24 % 256,
   v / 2 ^ 32 % 256, v / 2 ^ 40 % 256, v / 2 ^ 48 % 256, v / 2 ^ 56 % 256]

/-- Overwrite the bytes of `dst` starting at offset `off` with the bytes
of `src`, mirroring a Go write into a subslice such as
`binary.LittleEndian.PutUint32(header[4:8], v)`. -/
def writeBytes : List Nat → Nat → List Nat → List Nat
  | dst, _, [] => dst
  | [], _, _ => []
  | _ :: dst, 0, s :: src => s :: writeBytes dst 0 src
  | d :: dst, n + 1, src => d :: writeBytes dst n src

/-! ### Protocol constants appearing in the sources -/

/-- Transport-message type tag (`MessageTransportType`). -/
def MessageTransportType : Nat := 4

/-- Size of the reserved transport-header prefix
(`MessageTransportHeaderSize`). -/
def MessageTransportHeaderSize : Nat := 16

/-- Plaintext padding granularity (`PaddingMultiple`). -/
def PaddingMultiple : Nat := 16

/-- AEAD nonce size of ChaCha20-Poly1305 (`chacha20poly1305.NonceSize`). -/
def NonceSize : Nat := 12

/-- `ipv4.Version` from golang.org/x/net/ipv4. -/
def IPv4Version : Nat := 4

/-- `ipv6.Version` from golang.org/x/net/ipv6. -/
def IPv6Version : Nat := 6

/-- `ipv4.HeaderLen` from golang.org/x/net/ipv4. -/
def IPv4HeaderLen : Nat := 20

/-- `ipv6.HeaderLen` from golang.org/x/net/ipv6. -/
def IPv6HeaderLen : Nat := 40

/-- `net.IPv4len`. -/
def IPv4len : Nat := 4

/-- `net.IPv6len`. -/
def IPv6len : Nat := 16

/-- Byte offset of the IPv4 destination address (`IPv4offsetDst`). -/
def IPv4offsetDst : Nat := 16

/-- Byte offset of the IPv6 destination address (`IPv6offsetDst`). -/
def IPv6offsetDst : Nat := 24

/-! ### Padding (`RoutineEncryption`, pad-content block)

The Go loop is
`for i := 0; i < PaddingMultiple-rem && len(elem.packet) < mtu; i++
   { elem.packet = append(elem.packet, 0) }`
run only when `rem := len(elem.packet) % PaddingMultiple` is positive. -/

/-- One-to-one image of the padding `for` loop: `count` is the iteration
budget `PaddingMultiple - rem`; each iteration appends one zero byte as
long as the packet is still shorter than `mtu`. -/
def padLoop (packet : List Nat) (mtu : Nat) : Nat → List Nat
  | 0 => packet
  | k + 1 => if packet.length < mtu then padLoop (packet ++ [0]) mtu k else packet

/-- The pad-content block of `RoutineEncryption`. -/
def pad (mtu : Nat) (packet : List Nat) : List Nat :=
  let rem := packet.length % PaddingMultiple
  if rem > 0 then padLoop packet mtu (PaddingMultiple - rem) else packet

/-! ### Keypair view and `keepKeyFreshSending` -/

/-- The fields of a session `Keypair` that the outbound path reads.
Time stamps are natural numbers; `now - created` is the keypair's age
(in real runs `created ≤ now`, so the truncated subtraction agrees with
Go durations). -/
structure Keypair where
  sendNonce : Nat
  created : Nat
  isInitiator : Bool
  remoteIndex : Nat

/-- The trigger decision of `keepKeyFreshSending`: whether
`SendHandshakeInitiation(false)` is invoked.  Mirrors
`if nonce > RekeyAfterMessages ||
    (kp.isInitiator && time.Now().Sub(kp.created) > RekeyAfterTime)`
after the nil check on the current keypair. -/
def keepKeyFreshSending (rekeyAfterMessages rekeyAfterTime : Nat)
    (current : Option Keypair) (now : Nat) : Bool :=
  match current with
  | none => false
  | some kp =>
      decide (kp.sendNonce > rekeyAfterMessages) ||
        (kp.isInitiator && decide (now - kp.created > rekeyAfterTime))

/-! ### Nonce assignment (`RoutineNonce`) -/

/-- `atomic.AddUint64(&keyPair.sendNonce, 1) - 1` in uint64 arithmetic:
the pre-increment value together with the incremented counter. -/
def fetchAndIncrement (c : Nat) : Nat × Nat := (c, (c + 1) % 2 ^ 64)

/-- Nonce assignment plus the sequencer's double check
(`elem.nonce = atomic.AddUint64(&keyPair.sendNonce, 1) - 1;
  if elem.nonce >= RejectAfterMessages { goto NextPacket }`):
returns the new counter and `some nonce` when the element proceeds to
the queues, `none` when it is skipped. -/
def nonceAssign (rejectAfterMessages c : Nat) : Nat × Option Nat :=
  let f := fetchAndIncrement c
  (f.2, if f.1 ≥ rejectAfterMessages then none else some f.1)

/-- The wait-loop condition under which `RoutineNonce` stops awaiting a
keypair: `keyPair.sendNonce < RejectAfterMessages` and
`time.Now().Sub(keyPair.created) < RejectAfterTime`. -/
def keypairUsableForSend (rejectAfterMessages rejectAfterTime : Nat)
    (sendNonce created now : Nat) : Bool :=
  decide (sendNonce < rejectAfterMessages) &&
    decide (now - created < rejectAfterTime)

/-- Handling of one popped element by `RoutineNonce` while a fixed
keypair (counter `c`, creation time `created`) is current: if the
keypair is usable the nonce is fetched-and-incremented and the double
check applied; otherwise the routine blocks awaiting a new keypair and
no nonce of this keypair is consumed. -/
def routineNonceProcessElem (rejectAfterMessages rejectAfterTime created : Nat)
    (now c : Nat) : Nat × Option Nat :=
  if keypairUsableForSend rejectAfterMessages rejectAfterTime c created now then
    nonceAssign rejectAfterMessages c
  else (c, none)

/-- Run of `RoutineNonce` under one keypair over a list of element
arrival times: final counter and, in order, the nonces of the elements
handed to the encryption/outbound queues (the elements that reach the
seal step). -/
def routineNonceRun (rejectAfterMessages rejectAfterTime created : Nat) :
    Nat → List Nat → Nat × List Nat
  | c, [] => (c, [])
  | c, now :: rest =>
      let r := routineNonceProcessElem rejectAfterMessages rejectAfterTime created now c
      let t := routineNonceRun rejectAfterMessages rejectAfterTime created r.1 rest
      (t.1, r.2.toList ++ t.2)

/-! ### Per-peer pipeline order (TUN reader → nonce queue → outbound queue → sender)

A transition system over element identifiers.  `pushDropOldest` is the
`addToOutboundQueue` retry loop: try to enqueue, and while full pop the
oldest element and mark it dropped.  Eviction from the shared encryption
queue (`addToEncryptionQueue`) and the eviction of this peer's elements
by later submissions appear as events that mark an arbitrary identifier
dropped; the sequential sender pops its FIFO in order, skipping dropped
elements (the latch makes each pop block until the worker finished that
very element, so pop order is send order). -/

/-- Push with drop-oldest semantics on a bounded channel of capacity
`cap`: the resulting queue and the evicted (dropped) identifiers. -/
def pushDropOldest (cap : Nat) (q : List Nat) (e : Nat) : List Nat × List Nat :=
  if q.length < cap then (q ++ [e], [])
  else
    match q with
    | [] => ([e], [])
    | old :: rest => (rest ++ [e], [old])

/-- Events of the per-peer outbound pipeline. -/
inductive PipeEvent where
  | tunRead : PipeEvent
  | nonceForward : PipeEvent
  | nonceSkip : PipeEvent
  | flushNonce : PipeEvent
  | markDropped (i : Nat) : PipeEvent
  | senderStep : PipeEvent

/-- State of one peer's outbound pipeline: fresh-identifier counter, the
TUN submission order, the nonce and outbound FIFOs, the set of dropped
identifiers, and the identifiers sent to the UDP endpoint in order. -/
structure PipeState where
  nextId : Nat
  submitted : List Nat
  nonceQueue : List Nat
  outboundQueue : List Nat
  droppedIds : List Nat
  sent : List Nat

/-- The empty pipeline. -/
def initPipeState : PipeState := ⟨0, [], [], [], [], []⟩

/-- One pipeline transition.  `tunRead` is `RoutineReadFromTUN`
submitting a fresh element to the nonce queue; `nonceForward` is
`RoutineNonce` moving the head of the nonce queue to the outbound queue
(the parallel submission to the encryption queue does not affect
per-peer order); `nonceSkip` is the RejectAfterMessages double-check
discard; `flushNonce` is the `flushNonceQueue` drain; `markDropped` is
a drop performed by eviction from the shared encryption queue;
`senderStep` is `RoutineSequentialSender` popping its FIFO head,
skipping it when dropped and otherwise sending it. -/
def pipeStep (ncap ocap : Nat) (s : PipeState) : PipeEvent → PipeState
  | .tunRead =>
      let e := s.nextId
      let p := pushDropOldest ncap s.nonceQueue e
      { s with nextId := e + 1, submitted := s.submitted ++ [e],
               nonceQueue := p.1, droppedIds := s.droppedIds ++ p.2 }
  | .nonceForward =>
      match s.nonceQueue with
      | [] => s
      | e :: rest =>
          let p := pushDropOldest ocap s.outboundQueue e
          { s with nonceQueue := rest, outboundQueue := p.1,
                   droppedIds := s.droppedIds ++ p.2 }
  | .nonceSkip =>
      match s.nonceQueue with
      | [] => s
      | _ :: rest => { s with nonceQueue := rest }
  | .flushNonce => { s with nonceQueue := [] }
  | .markDropped i => { s with droppedIds := s.droppedIds ++ [i] }
  | .senderStep =>
      match s.outboundQueue with
      | [] => s
      | e :: rest =>
          if e ∈ s.droppedIds then { s with outboundQueue := rest }
          else { s with outboundQueue := rest, sent := s.sent ++ [e] }

/-- Run the pipeline over a list of events. -/
def pipeRun (ncap ocap : Nat) (s : PipeState) : List PipeEvent → PipeState
  | [] => s
  | ev :: rest => pipeRun ncap ocap (pipeStep ncap ocap s ev) rest

/-! ### Encryption worker (`RoutineEncryption`) -/

/-- The header-population block: writes 4-byte LE type, 4-byte LE
receiver index and 8-byte LE nonce into the reserved 16-byte buffer
prefix (`header[0:4]`, `header[4:8]`, `header[8:16]`). -/
def mkTransportHeader (bufPrefix : List Nat) (remoteIndex nonce : Nat) : List Nat :=
  writeBytes
    (writeBytes (writeBytes bufPrefix 0 (putUint32LE MessageTransportType))
      4 (putUint32LE remoteIndex))
    8 (putUint64LE nonce)

/-- `binary.LittleEndian.PutUint64(nonce[4:], elem.nonce)` on the
worker's 12-byte nonce scratch array (whose first four bytes are never
written and stay zero). -/
def mkAeadNonce (scratch : List Nat) (nonce : Nat) : List Nat :=
  writeBytes scratch 4 (putUint64LE nonce)

/-- The seal step: header population, padding, and
`elem.keyPair.send.Seal(header, nonce[:], elem.packet, nil)`, which
appends the ciphertext-and-tag of the padded plaintext to the header.
`seal` abstracts the ChaCha20-Poly1305 sealing function
(12-byte nonce, plaintext ↦ ciphertext ++ tag; associated data is nil). -/
def sealTransportMessage (sealAEAD : List Nat → List Nat → List Nat) (mtu : Nat)
    (nonceScratch bufPrefix : List Nat) (remoteIndex nonce : Nat)
    (packet : List Nat) : List Nat :=
  mkTransportHeader bufPrefix remoteIndex nonce ++
    sealAEAD (mkAeadNonce nonceScratch nonce) (pad mtu packet)

/-- One `RoutineEncryption` loop body on a popped element: a dropped
element is skipped by `continue` — without touching its latch — and
otherwise the element is sealed and its latch released
(`elem.mutex.Unlock()`).  Returns the new packet view (when sealed) and
whether the latch was released. -/
def routineEncryptionStep (sealAEAD : List Nat → List Nat → List Nat) (mtu : Nat)
    (nonceScratch bufPrefix : List Nat) (dropped : Bool)
    (remoteIndex nonce : Nat) (packet : List Nat) : Option (List Nat) × Bool :=
  if dropped then (none, false)
  else
    (some (sealTransportMessage sealAEAD mtu nonceScratch bufPrefix remoteIndex nonce packet),
     true)

/-- Effect of `addToEncryptionQueue` on an element evicted from a full
encryption queue: `old.Drop(); old.mutex.Unlock()` — components
(dropped flag set, latch released). -/
def addToEncryptionQueueEvictEffect : Bool × Bool := (true, true)

/-! ### Sequential sender (`RoutineSequentialSender`) and the flush drain -/

/-- The sender's processing of its outbound FIFO.  Each entry is
(element identifier, dropped flag observed after the latch is acquired,
whether `SendBuffer` fails).  Returns, in order, the identifiers for
which a send was attempted and the identifiers whose buffer was
returned to the pool (`device.PutMessageBuffer(elem.buffer)`).  A
dropped element is skipped by `continue`, which performs neither. -/
def runSequentialSender : List (Nat × Bool × Bool) → List Nat × List Nat
  | [] => ([], [])
  | (e, dropped, _sendErr) :: rest =>
      let r := runSequentialSender rest
      if dropped then r else (e :: r.1, e :: r.2)

/-- The `flushNonceQueue` drain inside `RoutineNonce`
(`for { select { case <-peer.queue.nonce: ; default: goto NextPacket } }`):
each pending element is popped and discarded; the returned list holds
the buffers handed back to the pool during the drain (none are). -/
def drainNonceQueue : List Nat → List Nat
  | [] => []
  | _ :: rest => drainNonceQueue rest

/-! ### Handshake initiation (`SendHandshakeInitiation`) -/

/-- Peer timer fields read and written by `SendHandshakeInitiation`. -/
structure HandshakeTimers where
  lastSentHandshake : Nat
  handshakeAttempts : Nat

/-- Result of one `SendHandshakeInitiation` call: the updated timers,
whether an initiation message was sent to the endpoint, and the
returned error. -/
structure HandshakeSendResult where
  timers : HandshakeTimers
  sent : Bool
  err : Option Unit

/-- `SendHandshakeInitiation(isRetry)`: reset the attempt counter when
not a retry; return nil when `now - lastSentHandshake < RekeyTimeout`;
otherwise record `lastSentHandshake = now`, build the initiation message
(`createErr` abstracts a `CreateMessageInitiation` failure) and send it. -/
def sendHandshakeInitiation (rekeyTimeout : Nat) (isRetry createErr : Bool)
    (now : Nat) (t : HandshakeTimers) : HandshakeSendResult :=
  let t1 := if isRetry then t else { t with handshakeAttempts := 0 }
  if now - t1.lastSentHandshake < rekeyTimeout then
    { timers := t1, sent := false, err := none }
  else
    let t2 := { t1 with lastSentHandshake := now }
    if createErr then { timers := t2, sent := false, err := some () }
    else { timers := t2, sent := true, err := none }

/-! ### Sticky-source UDP bind (`send4` / `send6`) -/

/-- Errors returned by `unix.SendmsgN`, with `EINVAL` distinguished. -/
inductive SysErr where
  | einval : SysErr
  | eother : Nat → SysErr
deriving DecidableEq

/-- The cached IPv4 source (`IPv4Source`): source address bytes and
interface index. -/
structure IPv4Source where
  src : List Nat
  ifindex : Nat
deriving DecidableEq

/-- `unix.Inet4Pktinfo` as passed in the control message. -/
structure Inet4Pktinfo where
  spec_dst : List Nat
  ifindex : Nat
deriving DecidableEq

/-- The cached IPv6 source (`IPv6Source`); its interface index lives in
`dst.ZoneId` and is passed separately. -/
structure IPv6Source where
  src : List Nat
deriving DecidableEq

/-- `unix.Inet6Pktinfo` as passed in the control message. -/
structure Inet6Pktinfo where
  addr : List Nat
  ifindex : Nat
deriving DecidableEq

/-- `send4(sock, end, buff)`: first `sendmsg` carries the cached source
in an `IP_PKTINFO` control message; on `EINVAL` the cached source is
cleared (`end.ClearSrc()`), the pktinfo zeroed, and the send retried
once.  Returns the endpoint's cached source after the call, the control
messages passed to `sendmsg` in order, and the error returned. -/
def send4 (sendmsg : Inet4Pktinfo → Option SysErr) (source : IPv4Source) :
    IPv4Source × List Inet4Pktinfo × Option SysErr :=
  let c1 : Inet4Pktinfo := ⟨source.src, source.ifindex⟩
  match sendmsg c1 with
  | none => (source, [c1], none)
  | some e =>
      if e = SysErr.einval then
        let c2 : Inet4Pktinfo := ⟨List.replicate 4 0, 0⟩
        (⟨List.replicate 4 0, 0⟩, [c1, c2], sendmsg c2)
      else (source, [c1], some e)

/-- The control message of `send6`'s first attempt: the cached source
address with the destination zone as interface index, except that a zero
source address forces the interface index to zero
(`if cmsg.pktinfo.Addr == [16]byte{} { cmsg.pktinfo.Ifindex = 0 }`). -/
def send6FirstPktinfo (source : IPv6Source) (dstZoneId : Nat) : Inet6Pktinfo :=
  let c0 : Inet6Pktinfo := ⟨source.src, dstZoneId⟩
  if c0.addr = List.replicate 16 0 then { c0 with ifindex := 0 } else c0

/-- `send6(sock, end, buff)`: as `send4`, with the quirk that a zero
cached source address forces the pktinfo interface index to zero before
the first attempt. -/
def send6 (sendmsg : Inet6Pktinfo → Option SysErr) (source : IPv6Source)
    (dstZoneId : Nat) : IPv6Source × List Inet6Pktinfo × Option SysErr :=
  let c1 := send6FirstPktinfo source dstZoneId
  match sendmsg c1 with
  | none => (source, [c1], none)
  | some e =>
      if e = SysErr.einval then
        let c2 : Inet6Pktinfo := ⟨List.replicate 16 0, 0⟩
        (⟨List.replicate 16 0⟩, [c1, c2], sendmsg c2)
      else (source, [c1], some e)

/-! ### TUN reader classification (`RoutineReadFromTUN`) -/

/-- The per-packet classify-and-route decision of `RoutineReadFromTUN`:
discard on size 0 or size above MaxContentSize; dispatch on the version
nibble `packet[0] >> 4`; for version 4 require at least
`ipv4.HeaderLen` bytes and look up the 4-byte destination at offset 16;
for version 6 require at least `ipv6.HeaderLen` bytes and look up the
16-byte destination at offset 24; any other nibble leaves the peer nil.
`none` means the packet is discarded with no work enqueued (the element
is reused for the next read). -/
def routineReadFromTUNRoute (maxContentSize : Nat)
    (lookupIPv4 lookupIPv6 : List Nat → Option Nat)
    (packet : List Nat) : Option Nat :=
  if packet.length = 0 ∨ packet.length > maxContentSize then none
  else
    match packet with
    | [] => none
    | b0 :: _ =>
        if b0 / 16 = IPv4Version then
          if packet.length < IPv4HeaderLen then none
          else lookupIPv4 ((packet.drop IPv4offsetDst).take IPv4len)
        else if b0 / 16 = IPv6Version then
          if packet.length < IPv6HeaderLen then none
          else lookupIPv6 ((packet.drop IPv6offsetDst).take IPv6len)
        else none

/-! ## Helper lemmas -/

theorem writeBytes_nil_src (dst : List Nat) (n : Nat) :
    writeBytes dst n [] = dst := by
  cases dst <;> cases n <;> rfl

theorem writeBytes_eq (dst : List Nat) (n : Nat) (src : List Nat)
    (h : n + src.length ≤ dst.length) :
    writeBytes dst n src = dst.take n ++ src ++ dst.drop (n + src.length) := by
  induction dst generalizing n src with
  | nil =>
      have hs : src = [] := by
        cases src with
        | nil => rfl
        | cons a t => simp at h
      subst hs
      simp [writeBytes_nil_src]
  | cons d dst ih =>
      cases src with
      | nil => simp [writeBytes_nil_src]
      | cons s src =>
          cases n with
          | zero =>
              simp only [writeBytes]
              have := ih 0 src (by simp at h ⊢; omega)
              simp at this
              simp [this]
          | succ m =>
              simp only [writeBytes]
              have := ih m (s :: src) (by simp at h ⊢; omega)
              simp [this, List.take_succ_cons, List.drop_succ_cons]
              rw [show m + 1 + (src.length + 1) = m + (src.length + 1) + 1 by omega,
                List.drop_succ_cons]

theorem padLoop_eq (mtu : Nat) :
    ∀ (count : Nat) (packet : List Nat),
      padLoop packet mtu count =
        packet ++ List.replicate (min count (mtu - packet.length)) 0 := by
  intro count
  induction count with
  | zero => intro packet; simp [padLoop]
  | succ k ih =>
      intro packet
      by_cases h : packet.length < mtu
      · rw [padLoop, if_pos h, ih]
        rw [List.append_assoc]
        congr 1
        rw [show List.replicate (min (k + 1) (mtu - packet.length)) 0 =
              List.replicate (min k (mtu - (packet.length + 1)) + 1) 0 by congr 1; omega]
        rw [List.replicate_succ]
        simp [List.replicate_succ]
      · rw [padLoop, if_neg h]
        rw [show min (k + 1) (mtu - packet.length) = 0 by omega]
        simp

theorem pad_eq (mtu : Nat) (p : List Nat) :
    pad mtu p =
      if p.length % PaddingMultiple = 0 then p
      else
        p ++ List.replicate
          (min (PaddingMultiple - p.length % PaddingMultiple) (mtu - p.length)) 0 := by
  by_cases h : p.length % PaddingMultiple = 0
  · simp [pad, h]
  · have hpos : p.length % PaddingMultiple > 0 := Nat.pos_of_ne_zero h
    simp [pad, h, hpos, padLoop_eq]

theorem length_putUint32LE (v : Nat) : (putUint32LE v).length = 4 := rfl

theorem length_putUint64LE (v : Nat) : (putUint64LE v).length = 8 := rfl

theorem mkTransportHeader_eq (bufPrefix : List Nat) (remoteIndex nonce : Nat)
    (h : bufPrefix.length = MessageTransportHeaderSize) :
    mkTransportHeader bufPrefix remoteIndex nonce =
      putUint32LE MessageTransportType ++ putUint32LE remoteIndex ++ putUint64LE nonce := by
  have h16 : bufPrefix.length = 16 := h
  have e1 : writeBytes bufPrefix 0 (putUint32LE MessageTransportType) =
      putUint32LE MessageTransportType ++ bufPrefix.drop 4 := by
    rw [writeBytes_eq _ _ _ (by rw [length_putUint32LE, h16]; omega)]
    simp [length_putUint32LE]
  have e2 : writeBytes (putUint32LE MessageTransportType ++ bufPrefix.drop 4) 4
        (putUint32LE remoteIndex) =
      putUint32LE MessageTransportType ++ (putUint32LE remoteIndex ++ bufPrefix.drop 8) := by
    rw [writeBytes_eq _ _ _
      (by simp [length_putUint32LE, h16])]
    rw [List.take_left' (length_putUint32LE MessageTransportType),
        show (4 + (putUint32LE remoteIndex).length : Nat) =
          (putUint32LE MessageTransportType).length + 4 from rfl,
        List.drop_append, List.drop_drop]
    norm_num
  have e3 : writeBytes
        (putUint32LE MessageTransportType ++ (putUint32LE remoteIndex ++ bufPrefix.drop 8)) 8
        (putUint64LE nonce) =
      putUint32LE MessageTransportType ++ putUint32LE remoteIndex ++ putUint64LE nonce := by
    rw [writeBytes_eq _ _ _
      (by simp [length_putUint32LE, length_putUint64LE, h16])]
    rw [← List.append_assoc,
        List.take_left' (by simp [length_putUint32LE] : (putUint32LE MessageTransportType ++ putUint32LE remoteIndex).length = 8),
        show (8 + (putUint64LE nonce).length : Nat) =
          (putUint32LE MessageTransportType ++ putUint32LE remoteIndex).length + 8 from rfl,
        List.drop_append, List.drop_drop]
    have hnil : bufPrefix.drop (8 + 8) = [] := List.drop_eq_nil_of_le (by omega)
    rw [hnil]
    simp
  simp only [mkTransportHeader, e1, e2, e3]

theorem pad_length (mtu : Nat) (p : List Nat) :
    (pad mtu p).length =
      if p.length % PaddingMultiple = 0 then p.length
      else p.length +
        min (PaddingMultiple - p.length % PaddingMultiple) (mtu - p.length) := by
  rw [pad_eq]
  by_cases h : p.length % PaddingMultiple = 0 <;> simp [h]

theorem pad_is_zero_extension (mtu : Nat) (p : List Nat) :
    pad mtu p = p ++ List.replicate ((pad mtu p).length - p.length) 0 := by
  rw [pad_length, pad_eq]
  by_cases h : p.length % PaddingMultiple = 0 <;> simp [h]

theorem drainNonceQueue_eq_nil : ∀ q : List Nat, drainNonceQueue q = [] := by
  intro q
  induction q with
  | nil => rfl
  | cons e rest ih => simpa [drainNonceQueue] using ih

theorem runSequentialSender_spec :
    ∀ q : List (Nat × Bool × Bool),
      (runSequentialSender q).1 =
        (q.filter (fun e => !e.2.1)).map (fun e => e.1) ∧
      (runSequentialSender q).2 =
        (q.filter (fun e => !e.2.1)).map (fun e => e.1) := by
  intro q
  induction q with
  | nil => exact ⟨rfl, rfl⟩
  | cons e rest ih =>
      obtain ⟨i, d, serr⟩ := e
      cases d <;> simp [runSequentialSender, List.filter, ih.1, ih.2]

theorem routineNonceRun_spec (rejectAfterMessages rejectAfterTime created : Nat)
    (hram : rejectAfterMessages < 2 ^ 64) :
    ∀ (times : List Nat) (c : Nat), c ≤ rejectAfterMessages →
      (∀ x ∈ (routineNonceRun rejectAfterMessages rejectAfterTime created c times).2,
        c ≤ x ∧ x < rejectAfterMessages) ∧
      (routineNonceRun rejectAfterMessages rejectAfterTime created c times).2.Pairwise
        (· < ·) := by
  intro times
  induction times with
  | nil => intro c _; simp [routineNonceRun]
  | cons now rest ih =>
      intro c hc
      by_cases hu : keypairUsableForSend rejectAfterMessages rejectAfterTime c created now
      · have hlt : c < rejectAfterMessages := by
          have := hu
          simp [keypairUsableForSend] at this
          exact this.1
        have hmod : (c + 1) % 2 ^ 64 = c + 1 := Nat.mod_eq_of_lt (by
          have h64 : (2 : Nat) ^ 64 = 18446744073709551616 := by norm_num
          omega)
        have hmod2 : (c + 1) % 18446744073709551616 = c + 1 := by
          have h64 : (18446744073709551616 : Nat) = 2 ^ 64 := by norm_num
          rw [h64]; exact hmod
        have hstep :
            routineNonceProcessElem rejectAfterMessages rejectAfterTime created now c =
              (c + 1, some c) := by
          simp [routineNonceProcessElem, hu, nonceAssign, fetchAndIncrement, hmod, hmod2,
            Nat.not_le_of_lt hlt]
        have ihr := ih (c + 1) (by omega)
        constructor
        · intro x hx
          simp [routineNonceRun, hstep] at hx
          rcases hx with rfl | hx
          · exact ⟨le_refl _, hlt⟩
          · have := ihr.1 x hx
            exact ⟨by omega, this.2⟩
        · simp only [routineNonceRun, hstep, Option.toList]
          refine List.Pairwise.cons ?_ ihr.2
          intro x hx
          have := ihr.1 x hx
          omega
      · have hstep :
            routineNonceProcessElem rejectAfterMessages rejectAfterTime created now c =
              (c, none) := by
          simp [routineNonceProcessElem, hu]
        have ihr := ih c hc
        constructor
        · intro x hx
          simp [routineNonceRun, hstep] at hx
          exact ihr.1 x hx
        · simp only [routineNonceRun, hstep, Option.toList]
          simpa using ihr.2

theorem mkAeadNonce_eq (scratch : List Nat) (nonce : Nat)
    (hlen : scratch.length = NonceSize) (hzero : scratch.take 4 = List.replicate 4 0) :
    mkAeadNonce scratch nonce = List.replicate 4 0 ++ putUint64LE nonce := by
  have h12 : scratch.length = 12 := hlen
  rw [mkAeadNonce, writeBytes_eq _ _ _ (by rw [length_putUint64LE, h12])]
  have : scratch.drop (4 + (putUint64LE nonce).length) = [] :=
    List.drop_eq_nil_of_le (by rw [length_putUint64LE]; omega)
  rw [this, hzero]
  simp

theorem sublist_cons_middle (l₁ l₂ : List Nat) (a : Nat) :
    (l₁ ++ l₂).Sublist (l₁ ++ a :: l₂) :=
  List.Sublist.append (List.Sublist.refl l₁) (List.sublist_cons_self a l₂)

theorem pipeStep_inv (ncap ocap : Nat) (s : PipeState) (ev : PipeEvent)
    (h : (s.sent ++ s.outboundQueue ++ s.nonceQueue).Sublist s.submitted) :
    ((pipeStep ncap ocap s ev).sent ++ (pipeStep ncap ocap s ev).outboundQueue ++
        (pipeStep ncap ocap s ev).nonceQueue).Sublist
      (pipeStep ncap ocap s ev).submitted := by
  cases ev with
  | tunRead =>
      simp only [pipeStep, pushDropOldest]
      by_cases hfull : s.nonceQueue.length < ncap
      · simp only [if_pos hfull]
        have := List.Sublist.append h (List.Sublist.refl [s.nextId])
        simpa [List.append_assoc] using this
      · simp only [if_neg hfull]
        cases hq : s.nonceQueue with
        | nil =>
            have := List.Sublist.append h (List.Sublist.refl [s.nextId])
            rw [hq] at this
            simpa [List.append_assoc] using this
        | cons old rest =>
            have h2 : (s.sent ++ s.outboundQueue ++ (rest ++ [s.nextId])).Sublist
                (s.sent ++ s.outboundQueue ++ (old :: rest ++ [s.nextId])) := by
              exact sublist_cons_middle (s.sent ++ s.outboundQueue) (rest ++ [s.nextId]) old
            have h3 := List.Sublist.append h (List.Sublist.refl [s.nextId])
            rw [hq] at h3
            simp only [List.append_assoc] at h2 h3 ⊢
            exact h2.trans h3
  | nonceForward =>
      simp only [pipeStep]
      cases hq : s.nonceQueue with
      | nil => simpa [hq] using h
      | cons e rest =>
          simp only [pushDropOldest]
          by_cases hfull : s.outboundQueue.length < ocap
          · simp only [if_pos hfull]
            rw [hq] at h
            simpa [List.append_assoc] using h
          · simp only [if_neg hfull]
            cases ho : s.outboundQueue with
            | nil =>
                rw [hq, ho] at h
                simpa [List.append_assoc] using h
            | cons old orest =>
                rw [hq, ho] at h
                have h2 : (s.sent ++ (orest ++ [e] ++ rest)).Sublist
                    (s.sent ++ (old :: (orest ++ [e] ++ rest))) :=
                  sublist_cons_middle s.sent (orest ++ [e] ++ rest) old
                simp only [List.append_assoc] at h2 h ⊢
                exact h2.trans h
  | nonceSkip =>
      simp only [pipeStep]
      cases hq : s.nonceQueue with
      | nil => simpa [hq] using h
      | cons e rest =>
          rw [hq] at h
          have h2 : (s.sent ++ s.outboundQueue ++ rest).Sublist
              (s.sent ++ s.outboundQueue ++ (e :: rest)) := by
            exact sublist_cons_middle (s.sent ++ s.outboundQueue) rest e
          simp only [List.append_assoc] at h2 h ⊢
          exact h2.trans h
  | flushNonce =>
      simp only [pipeStep]
      have h2 : (s.sent ++ s.outboundQueue ++ ([] : List Nat)).Sublist
          (s.sent ++ s.outboundQueue ++ s.nonceQueue) := by
        simp only [List.append_assoc]
        exact List.Sublist.append (List.Sublist.refl _)
          (List.Sublist.append (List.Sublist.refl _) (List.nil_sublist _))
      exact h2.trans h
  | markDropped i =>
      simpa [pipeStep] using h
  | senderStep =>
      simp only [pipeStep]
      cases ho : s.outboundQueue with
      | nil => simpa [ho] using h
      | cons e rest =>
          rw [ho] at h
          by_cases hd : e ∈ s.droppedIds
          · simp only [if_pos hd]
            have h2 : (s.sent ++ rest ++ s.nonceQueue).Sublist
                (s.sent ++ (e :: rest) ++ s.nonceQueue) := by
              exact List.Sublist.append (sublist_cons_middle s.sent rest e)
                (List.Sublist.refl s.nonceQueue)
            simp only [List.append_assoc] at h2 h ⊢
            exact h2.trans h
          · simp only [if_neg hd]
            simpa [List.append_assoc] using h

theorem pipeRun_inv (ncap ocap : Nat) :
    ∀ (events : List PipeEvent) (s : PipeState),
      (s.sent ++ s.outboundQueue ++ s.nonceQueue).Sublist s.submitted →
      ((pipeRun ncap ocap s events).sent ++ (pipeRun ncap ocap s events).outboundQueue ++
          (pipeRun ncap ocap s events).nonceQueue).Sublist
        (pipeRun ncap ocap s events).submitted := by
  intro events
  induction events with
  | nil => intro s h; simpa [pipeRun] using h
  | cons ev rest ih =>
      intro s h
      exact ih (pipeStep ncap ocap s ev) (pipeStep_inv ncap ocap s ev h)

theorem pipeStep_submitted_range (ncap ocap : Nat) (s : PipeState) (ev : PipeEvent)
    (h : s.submitted = List.range s.nextId) :
    (pipeStep ncap ocap s ev).submitted = List.range (pipeStep ncap ocap s ev).nextId := by
  cases ev <;> simp only [pipeStep] <;> (try split) <;> (try split) <;>
    simp [h, List.range_succ]

theorem pipeRun_submitted_range (ncap ocap : Nat) :
    ∀ (events : List PipeEvent) (s : PipeState),
      s.submitted = List.range s.nextId →
      (pipeRun ncap ocap s events).submitted =
        List.range (pipeRun ncap ocap s events).nextId := by
  intro events
  induction events with
  | nil => intro s h; simpa [pipeRun] using h
  | cons ev rest ih =>
      intro s h
      exact ih (pipeStep ncap ocap s ev) (pipeStep_submitted_range ncap ocap s ev h)

/-! ## Claim theorems -/

/-- Claim C1: for any single peer, the order of transmitted UDP data
messages is a subsequence of the order in which the TUN reader enqueued
the packets: in every run of the per-peer pipeline, the sequence of sent
identifiers is a sublist of the (duplicate-free) submission sequence, so
two submitted packets are either sent in submission order or at least
one of them is dropped and never sent — never reordered. -/
theorem c1_sent_subsequence_of_submitted (ncap ocap : Nat)
    (events : List PipeEvent) :
    ((pipeRun ncap ocap initPipeState events).sent).Sublist
      ((pipeRun ncap ocap initPipeState events).submitted) ∧
    ((pipeRun ncap ocap initPipeState events).submitted).Nodup := by
  have hsub := pipeRun_inv ncap ocap events initPipeState (by simp [initPipeState])
  constructor
  · exact ((List.sublist_append_left _ _).trans (List.sublist_append_left _ _)).trans hsub
  · rw [pipeRun_submitted_range ncap ocap events initPipeState (by simp [initPipeState])]
    exact List.nodup_range _

/-- Claim C2: within the lifetime of a keypair, the nonces of the
elements that reach the seal step are strictly increasing (hence
pairwise distinct) and all below RejectAfterMessages; nonces are
assigned by the fetch-and-increment of the keypair's send counter, and
an element whose assigned nonce reaches RejectAfterMessages is skipped
by the double check and never sealed. -/
theorem c2_nonce_unique_and_bounded (rejectAfterMessages rejectAfterTime created c0 : Nat)
    (times : List Nat) (hram : rejectAfterMessages < 2 ^ 64)
    (hc0 : c0 ≤ rejectAfterMessages) :
    ((routineNonceRun rejectAfterMessages rejectAfterTime created c0 times).2).Pairwise
      (· < ·) ∧
    ((routineNonceRun rejectAfterMessages rejectAfterTime created c0 times).2).Nodup ∧
    (∀ x ∈ (routineNonceRun rejectAfterMessages rejectAfterTime created c0 times).2,
      x < rejectAfterMessages) ∧
    (∀ c, nonceAssign rejectAfterMessages c =
      ((fetchAndIncrement c).2,
        if rejectAfterMessages ≤ (fetchAndIncrement c).1 then none
        else some (fetchAndIncrement c).1)) ∧
    (∀ c, rejectAfterMessages ≤ c → (nonceAssign rejectAfterMessages c).2 = none) := by
  obtain ⟨hmem, hpair⟩ :=
    routineNonceRun_spec rejectAfterMessages rejectAfterTime created hram times c0 hc0
  refine ⟨hpair, hpair.imp (fun hab => Nat.ne_of_lt hab), fun x hx => (hmem x hx).2,
    fun c => rfl, fun c hcge => ?_⟩
  simp [nonceAssign, fetchAndIncrement, hcge]

/-- Witness for claim C2: a concrete run with RejectAfterMessages = 2
starting at counter 0 over three elements. -/
theorem c2_nonce_unique_and_bounded_witness :
    2 < 2 ^ 64 ∧ 0 ≤ 2 ∧
    ((routineNonceRun 2 10 0 0 [0, 0, 0]).2).Pairwise (· < ·) ∧
    ((routineNonceRun 2 10 0 0 [0, 0, 0]).2).Nodup :=
  ⟨by norm_num, by decide,
    (c2_nonce_unique_and_bounded 2 10 0 0 [0, 0, 0] (by norm_num) (by decide)).1,
    (c2_nonce_unique_and_bounded 2 10 0 0 [0, 0, 0] (by norm_num) (by decide)).2.1⟩

/-- Claim C3: the encryption worker produces bit-exactly a 16-byte header
(4-byte little-endian type 4, 4-byte little-endian remote index, 8-byte
little-endian element nonce) followed by the AEAD sealing of the padded
plaintext under the 12-byte nonce made of four zero bytes and the 8-byte
little-endian element nonce, with the latch released and the packet view
spanning header plus ciphertext plus tag. -/
theorem c3_transport_message_format (sealAEAD : List Nat → List Nat → List Nat)
    (mtu remoteIndex nonce : Nat) (nonceScratch bufPrefix packet : List Nat)
    (hbuf : bufPrefix.length = MessageTransportHeaderSize)
    (hscratch : nonceScratch.length = NonceSize)
    (hscratch4 : nonceScratch.take 4 = List.replicate 4 0) :
    routineEncryptionStep sealAEAD mtu nonceScratch bufPrefix false remoteIndex nonce
        packet =
      (some (putUint32LE MessageTransportType ++ putUint32LE remoteIndex ++
        putUint64LE nonce ++
        sealAEAD (List.replicate 4 0 ++ putUint64LE nonce) (pad mtu packet)), true) ∧
    putUint32LE MessageTransportType = [4, 0, 0, 0] := by
  refine ⟨?_, rfl⟩
  simp only [routineEncryptionStep, Bool.false_eq_true, if_false, sealTransportMessage,
    mkTransportHeader_eq bufPrefix remoteIndex nonce hbuf,
    mkAeadNonce_eq nonceScratch nonce hscratch hscratch4]

/-- Witness for claim C3: a concrete sealing with a stand-in AEAD. -/
theorem c3_transport_message_format_witness :
    (List.replicate 16 7).length = MessageTransportHeaderSize ∧
    (List.replicate 12 0).length = NonceSize ∧
    (List.replicate 12 0).take 4 = List.replicate 4 0 ∧
    routineEncryptionStep (fun n p => n ++ p) 16 (List.replicate 12 0)
        (List.replicate 16 7) false 258 1 [9] =
      (some (putUint32LE MessageTransportType ++ putUint32LE 258 ++ putUint64LE 1 ++
        (fun n p => n ++ p) (List.replicate 4 0 ++ putUint64LE 1) (pad 16 [9])), true) :=
  ⟨by decide, by decide, by decide,
    (c3_transport_message_format (fun n p => n ++ p) 16 258 1 (List.replicate 12 0)
      (List.replicate 16 7) [9] (by decide) (by decide) (by decide)).1⟩

/-- Claim C4 counterexample: a plaintext longer than the MTU is sent
unshortened, so the sealed plaintext length is neither a multiple of 16
nor equal to the MTU and exceeds the MTU — with MTU 16 and a 17-byte
plaintext the padding loop appends nothing and the length stays 17. -/
theorem c4_counterexample :
    (pad 16 (List.replicate 17 1)).length = 17 ∧
    ¬ ((pad 16 (List.replicate 17 1)).length ≤ 16) ∧
    ¬ ((pad 16 (List.replicate 17 1)).length % PaddingMultiple = 0 ∨
       (pad 16 (List.replicate 17 1)).length = 16) := by
  refine ⟨?_, ?_, ?_⟩ <;> decide

/-- Claim C4 (amended): for every packet whose plaintext length L does
not exceed the MTU at encryption time, the padding step appends only
zero bytes and the padded length L' satisfies L' ≥ L, L' mod 16 = 0 or
L' = MTU, and L' ≤ MTU. -/
theorem c4_padding_bounded (mtu : Nat) (p : List Nat) (h : p.length ≤ mtu) :
    p.length ≤ (pad mtu p).length ∧
    ((pad mtu p).length % PaddingMultiple = 0 ∨ (pad mtu p).length = mtu) ∧
    (pad mtu p).length ≤ mtu ∧
    pad mtu p = p ++ List.replicate ((pad mtu p).length - p.length) 0 := by
  have hz := pad_is_zero_extension mtu p
  have hl := pad_length mtu p
  refine ⟨?_, ?_, ?_, hz⟩ <;>
  · rw [hl]
    by_cases h0 : p.length % PaddingMultiple = 0
    · simp only [if_pos h0]
      simp only [PaddingMultiple] at h0 ⊢
      omega
    · simp only [if_neg h0]
      simp only [PaddingMultiple] at h0 ⊢
      omega

/-- Witness for claim C4 (amended): a 5-byte plaintext with MTU 20 pads
to 16 bytes. -/
theorem c4_padding_bounded_witness :
    (List.replicate 5 7).length ≤ 20 ∧
    ((List.replicate 5 7).length ≤ (pad 20 (List.replicate 5 7)).length ∧
     ((pad 20 (List.replicate 5 7)).length % PaddingMultiple = 0 ∨
       (pad 20 (List.replicate 5 7)).length = 20) ∧
     (pad 20 (List.replicate 5 7)).length ≤ 20 ∧
     pad 20 (List.replicate 5 7) =
       List.replicate 5 7 ++
         List.replicate ((pad 20 (List.replicate 5 7)).length -
           (List.replicate 5 7).length) 0) :=
  ⟨by decide, c4_padding_bounded 20 (List.replicate 5 7) (by decide)⟩

/-- Claim C5 counterexample: a current keypair that is not
initiator-side but whose send counter exceeds RekeyAfterMessages does
trigger a handshake from `keepKeyFreshSending`, contradicting the claim
that no handshake is triggered by this path for responder-side keypairs. -/
theorem c5_counterexample :
    keepKeyFreshSending 5 100
        (some { sendNonce := 6, created := 0, isInitiator := false, remoteIndex := 0 })
        0 = true ∧
    ({ sendNonce := 6, created := 0, isInitiator := false, remoteIndex := 0 } :
      Keypair).isInitiator = false :=
  ⟨rfl, rfl⟩

/-- Claim C5 (amended): `keepKeyFreshSending` triggers a non-retry
handshake initiation if and only if the current keypair exists and
either its send counter exceeds RekeyAfterMessages, or it is
initiator-side and its age exceeds RekeyAfterTime; the initiator check
guards only the age branch. -/
theorem c5_keep_key_fresh_trigger_iff (rekeyAfterMessages rekeyAfterTime now : Nat) :
    keepKeyFreshSending rekeyAfterMessages rekeyAfterTime none now = false ∧
    ∀ kp : Keypair,
      (keepKeyFreshSending rekeyAfterMessages rekeyAfterTime (some kp) now = true ↔
        (rekeyAfterMessages < kp.sendNonce ∨
          (kp.isInitiator = true ∧ rekeyAfterTime < now - kp.created))) := by
  refine ⟨rfl, fun kp => ?_⟩
  simp [keepKeyFreshSending, Bool.or_eq_true, Bool.and_eq_true, decide_eq_true_iff]

/-- Claim C6 counterexample: a dropped element popped by the sequential
sender is skipped with no send attempt and no buffer return, and the
`flushNonceQueue` drain returns no buffers to the pool — against the
claim that these paths return every buffer exactly once. -/
theorem c6_counterexample :
    runSequentialSender [(0, true, false)] = ([], []) ∧
    drainNonceQueue [1, 2, 3] = [] :=
  ⟨rfl, rfl⟩

/-- Claim C6 (amended): the sequential sender returns to the pool
exactly the buffers of the non-dropped elements it pops — one return
per send attempt, regardless of send errors; elements popped with the
dropped flag set and elements discarded by the `flushNonceQueue` drain
have no buffer returned. -/
theorem c6_buffer_release (q : List (Nat × Bool × Bool)) (flushQ : List Nat) :
    (runSequentialSender q).2 = (q.filter (fun e => !e.2.1)).map (fun e => e.1) ∧
    (runSequentialSender q).2 = (runSequentialSender q).1 ∧
    drainNonceQueue flushQ = [] := by
  obtain ⟨h1, h2⟩ := runSequentialSender_spec q
  exact ⟨h2, by rw [h1, h2], drainNonceQueue_eq_nil flushQ⟩

/-- Claim C7 counterexample: an encryption worker that pops an element
whose dropped flag is set skips it by `continue` without releasing the
element's latch. -/
theorem c7_counterexample :
    (routineEncryptionStep (fun n p => n ++ p) 0 (List.replicate 12 0)
      (List.replicate 16 0) true 0 0 []).2 = false :=
  rfl

/-- Claim C7 (amended): the worker releases the latch exactly when it
seals a non-dropped element; dropped elements are skipped with the
latch untouched; the path that both sets the dropped flag and releases
the latch is eviction from the encryption queue in
`addToEncryptionQueue`. -/
theorem c7_latch_discipline (sealAEAD : List Nat → List Nat → List Nat)
    (mtu remoteIndex nonce : Nat) (nonceScratch bufPrefix packet : List Nat) :
    (routineEncryptionStep sealAEAD mtu nonceScratch bufPrefix true remoteIndex nonce
      packet).2 = false ∧
    (routineEncryptionStep sealAEAD mtu nonceScratch bufPrefix false remoteIndex nonce
      packet).2 = true ∧
    addToEncryptionQueueEvictEffect = (true, true) :=
  ⟨rfl, rfl, rfl⟩

/-- Claim C8: when `SendHandshakeInitiation` is called twice and at the
second call the time elapsed since `lastSentHandshake` is below
RekeyTimeout, the second call sends nothing and returns without error,
so at most one initiation is sent per RekeyTimeout window. -/
theorem c8_handshake_rate_limited (rekeyTimeout : Nat)
    (isRetry1 createErr1 isRetry2 createErr2 : Bool) (now1 now2 : Nat)
    (t : HandshakeTimers)
    (h : now2 -
        (sendHandshakeInitiation rekeyTimeout isRetry1 createErr1 now1 t).timers.lastSentHandshake
      < rekeyTimeout) :
    (sendHandshakeInitiation rekeyTimeout isRetry2 createErr2 now2
      (sendHandshakeInitiation rekeyTimeout isRetry1 createErr1 now1 t).timers).sent =
        false ∧
    (sendHandshakeInitiation rekeyTimeout isRetry2 createErr2 now2
      (sendHandshakeInitiation rekeyTimeout isRetry1 createErr1 now1 t).timers).err =
        none := by
  set r := sendHandshakeInitiation rekeyTimeout isRetry1 createErr1 now1 t
  cases isRetry2 with
  | false => constructor <;> simp [sendHandshakeInitiation, h]
  | true => constructor <;> simp [sendHandshakeInitiation, h]

/-- Witness for claim C8: first call at time 25 sends (updating
`lastSentHandshake` to 25), the second call at time 30 with RekeyTimeout
7 is rate-limited. -/
theorem c8_handshake_rate_limited_witness :
    30 - (sendHandshakeInitiation 7 false false 25
        { lastSentHandshake := 0, handshakeAttempts := 0 }).timers.lastSentHandshake < 7 ∧
    ((sendHandshakeInitiation 7 false false 30
        (sendHandshakeInitiation 7 false false 25
          { lastSentHandshake := 0, handshakeAttempts := 0 }).timers).sent = false ∧
     (sendHandshakeInitiation 7 false false 30
        (sendHandshakeInitiation 7 false false 25
          { lastSentHandshake := 0, handshakeAttempts := 0 }).timers).err = none) :=
  ⟨by decide,
    c8_handshake_rate_limited 7 false false false false 25 30
      { lastSentHandshake := 0, handshakeAttempts := 0 } (by decide)⟩

/-- Claim C9: `Bind.Send` retries exactly once with an empty pktinfo
control message and a cleared cached source when the first `sendmsg`
fails with EINVAL; any other error is returned with no retry and no
source change; on success the cached source is unchanged — for both the
IPv4 and IPv6 paths. -/
theorem c9_send_einval_retry_once
    (sendmsg4 : Inet4Pktinfo → Option SysErr) (s4 : IPv4Source)
    (sendmsg6 : Inet6Pktinfo → Option SysErr) (s6 : IPv6Source) (zoneId : Nat) :
    (sendmsg4 ⟨s4.src, s4.ifindex⟩ = none →
      send4 sendmsg4 s4 = (s4, [⟨s4.src, s4.ifindex⟩], none)) ∧
    (sendmsg4 ⟨s4.src, s4.ifindex⟩ = some SysErr.einval →
      send4 sendmsg4 s4 =
        (⟨List.replicate 4 0, 0⟩,
         [⟨s4.src, s4.ifindex⟩, ⟨List.replicate 4 0, 0⟩],
         sendmsg4 ⟨List.replicate 4 0, 0⟩)) ∧
    (∀ k, sendmsg4 ⟨s4.src, s4.ifindex⟩ = some (SysErr.eother k) →
      send4 sendmsg4 s4 = (s4, [⟨s4.src, s4.ifindex⟩], some (SysErr.eother k))) ∧
    (sendmsg6 (send6FirstPktinfo s6 zoneId) = none →
      send6 sendmsg6 s6 zoneId = (s6, [send6FirstPktinfo s6 zoneId], none)) ∧
    (sendmsg6 (send6FirstPktinfo s6 zoneId) = some SysErr.einval →
      send6 sendmsg6 s6 zoneId =
        (⟨List.replicate 16 0⟩,
         [send6FirstPktinfo s6 zoneId, ⟨List.replicate 16 0, 0⟩],
         sendmsg6 ⟨List.replicate 16 0, 0⟩)) ∧
    (∀ k, sendmsg6 (send6FirstPktinfo s6 zoneId) = some (SysErr.eother k) →
      send6 sendmsg6 s6 zoneId =
        (s6, [send6FirstPktinfo s6 zoneId], some (SysErr.eother k))) := by
  refine ⟨fun h => ?_, fun h => ?_, fun k h => ?_, fun h => ?_, fun h => ?_,
    fun k h => ?_⟩ <;>
    simp [send4, send6, h]

/-- Witness for claim C9: both family paths with oracles whose first
attempt fails with EINVAL and whose retry succeeds. -/
theorem c9_send_einval_retry_once_witness :
    (fun c : Inet4Pktinfo => if c.ifindex = 9 then some SysErr.einval else none)
        ⟨(⟨[1, 2, 3, 4], 9⟩ : IPv4Source).src, (⟨[1, 2, 3, 4], 9⟩ : IPv4Source).ifindex⟩ =
      some SysErr.einval ∧
    send4 (fun c : Inet4Pktinfo => if c.ifindex = 9 then some SysErr.einval else none)
        ⟨[1, 2, 3, 4], 9⟩ =
      (⟨List.replicate 4 0, 0⟩,
       [⟨(⟨[1, 2, 3, 4], 9⟩ : IPv4Source).src, (⟨[1, 2, 3, 4], 9⟩ : IPv4Source).ifindex⟩,
        ⟨List.replicate 4 0, 0⟩],
       (fun c : Inet4Pktinfo => if c.ifindex = 9 then some SysErr.einval else none)
         ⟨List.replicate 4 0, 0⟩) :=
  ⟨by decide,
    (c9_send_einval_retry_once
      (fun c : Inet4Pktinfo => if c.ifindex = 9 then some SysErr.einval else none)
      ⟨[1, 2, 3, 4], 9⟩
      (fun _ : Inet6Pktinfo => none) ⟨List.replicate 16 1⟩ 3).2.1 (by decide)⟩

/-- Claim C10: beyond the spec's discard rules (size 0, size above
MaxContentSize, unknown version nibble), the TUN reader also discards,
with no work enqueued, packets whose version nibble is 4 but that are
shorter than the 20-byte IPv4 header, and packets whose version nibble
is 6 but that are shorter than the 40-byte IPv6 header. -/
theorem c10_short_ip_headers_discarded (maxContentSize : Nat)
    (lookupIPv4 lookupIPv6 : List Nat → Option Nat) (b0 : Nat) (rest : List Nat) :
    (b0 / 16 = IPv4Version → (b0 :: rest).length < IPv4HeaderLen →
      routineReadFromTUNRoute maxContentSize lookupIPv4 lookupIPv6 (b0 :: rest) = none) ∧
    (b0 / 16 = IPv6Version → (b0 :: rest).length < IPv6HeaderLen →
      routineReadFromTUNRoute maxContentSize lookupIPv4 lookupIPv6 (b0 :: rest) = none) := by
  constructor
  · intro h4 hlen
    by_cases hsz : (b0 :: rest).length = 0 ∨ (b0 :: rest).length > maxContentSize
    · simp only [routineReadFromTUNRoute, if_pos hsz]
    · simp only [routineReadFromTUNRoute, if_neg hsz]
      rw [if_pos h4, if_pos hlen]
  · intro h6 hlen
    have h46 : ¬ (b0 / 16 = IPv4Version) := by
      rw [h6]
      simp [IPv4Version, IPv6Version]
    by_cases hsz : (b0 :: rest).length = 0 ∨ (b0 :: rest).length > maxContentSize
    · simp only [routineReadFromTUNRoute, if_pos hsz]
    · simp only [routineReadFromTUNRoute, if_neg hsz]
      rw [if_neg h46, if_pos h6, if_pos hlen]

/-- Witness for claim C10: a one-byte packet with version nibble 4 is
discarded even though both lookups would find a peer. -/
theorem c10_short_ip_headers_discarded_witness :
    (69 : Nat) / 16 = IPv4Version ∧ ([(69 : Nat)]).length < IPv4HeaderLen ∧
    routineReadFromTUNRoute 65535 (fun _ => some 0) (fun _ => some 0) [69] = none :=
  ⟨by decide, by decide,
    (c10_short_ip_headers_discarded 65535 (fun _ => some 0) (fun _ => some 0) 69 []).1
      (by decide) (by decide)⟩

end WireGuard
